import Mathlib

/-!
Shallow embedding of `src/calc_ccf.py` over the rationals.

Conventions used throughout:
* numpy arrays of floats become `List ℚ`; elementwise `+` is `List.zipWith (+)`,
  scalar multiplication is `List.map`, and `x /= sum(x)` is `List.map (fun v => v / x.sum)`.
* Python float arithmetic is modelled exactly over `ℚ`.  `ℚ` has no `NaN`/`inf`:
  a float division by zero (which numpy turns into `nan`/`inf`) is modelled by
  Lean's `x / 0 = 0` convention; every place where this matters is noted.
* `scipy.stats.beta.pdf(x, a, b)` with integer shapes `a, b ≥ 1` is the exact density
  `x^(a-1) * (1-x)^(b-1) / B(a, b)` on `[0, 1]` and `0` outside the support,
  with `B(a, b) = (a-1)! (b-1)! / (a+b-1)!`.
* `scipy.stats.binom.pmf(k, n, p)` is the exact mass `C(n,k) p^k (1-p)^(n-k)`;
  scipy returns `NaN` for `p` outside `[0,1]`, where this formula is the analytic
  continuation instead; theorems that rely on the value keep `p` inside `[0,1]`.
-/

/-- Elementwise sum of two equal-length vectors (numpy `a + b`). -/
def addV (a b : List ℚ) : List ℚ := List.zipWith (fun x y => x + y) a b

/-- Scalar multiple of a vector (numpy `c * a`). -/
def scaleV (c : ℚ) (a : List ℚ) : List ℚ := a.map (fun x => c * x)

/-- Normalization `a /= sum(a)` (numpy; for a zero sum numpy yields `nan`s, modelled here
by `x / 0 = 0`, i.e. the all-zero vector). -/
def normV (a : List ℚ) : List ℚ := a.map (fun x => x / a.sum)

/-- `np.linspace(0, 1, n)`: the grid `i / (n-1)` for `i < n` (for `n = 1` numpy gives
`[0.0]`, matched here by `0 / 0 = 0`). -/
def linspace01 (n : ℕ) : List ℚ :=
  (List.range n).map (fun (i : ℕ) => (i : ℚ) / ((n : ℚ) - 1))

/-- `np.arange(start, stop)` with unit step: `start, start+1, ...` while `< stop`;
the element count is `⌈stop - start⌉` (clamped at `0`). -/
def npArange (start stop : ℚ) : List ℚ :=
  (List.range (⌈stop - start⌉).toNat).map (fun (k : ℕ) => start + (k : ℚ))

/-- First index of a maximal element (`np.argmax`); `0` on the empty list. -/
def listMax : List ℚ → ℚ
  | [] => 0
  | [x] => x
  | x :: y :: t => max x (listMax (y :: t))

/-- `np.argmax`: index of the first occurrence of the maximum value. -/
def npArgmax (l : List ℚ) : ℕ := l.indexOf (listMax l)

/-- `scipy.stats.beta.pdf(x, a, b)` for integer shapes `a, b ≥ 1` (the only shapes the
source uses: `(alt_cnt+1, ref_cnt+1)` and `(alt_cnt+1, 1)`). -/
def betaPdf (x : ℚ) (a b : ℕ) : ℚ :=
  if 0 ≤ x ∧ x ≤ 1 then
    x ^ (a - 1) * (1 - x) ^ (b - 1) * (Nat.factorial (a + b - 1) : ℚ) /
      ((Nat.factorial (a - 1) : ℚ) * (Nat.factorial (b - 1) : ℚ))
  else 0

/-- `scipy.stats.binom.pmf(k, n, p)`: `C(n,k) p^k (1-p)^(n-k)` (exact for `p ∈ [0,1]`;
see the module comment for `p` outside `[0,1]`). -/
def binomPmf (k n : ℕ) (p : ℚ) : ℚ := (n.choose k : ℚ) * p ^ k * (1 - p) ^ (n - k)

/-- `get_clonal_cns` (src/calc_ccf.py lines 72-81): decompose a local copy number into
clonal and subclonal integer parts and the subclonal fraction.  The source returns
numpy floats; the integer parts are modelled as integer-valued rationals. -/
def get_clonal_cns (local_cn : ℚ) : ℚ × ℚ × ℚ :=
  if 1 < local_cn then
    ((⌊local_cn⌋ : ℚ), (⌈local_cn⌉ : ℚ), local_cn - (⌊local_cn⌋ : ℚ))
  else
    ((⌈local_cn⌉ : ℚ), (⌊local_cn⌋ : ℚ), (⌈local_cn⌉ : ℚ) - local_cn)

/-- `calc_mult_weight` (lines 84-86): binomial likelihood of the observed counts at the
allele fraction implied by a candidate multiplicity. -/
def calc_mult_weight (multiplicity purity total_count : ℚ)
    (alt_count total_coverage : ℕ) : ℚ :=
  binomPmf alt_count total_coverage
    (multiplicity * purity / (total_count * purity + 2 * (1 - purity)))

/-- `ccf_dist_from_params` (lines 108-131).  In the source the `mult == 0` branch returns
the pair `(one-hot array, 0.)` while the main branch returns just the array; the model
keeps the histogram component, which is all any caller uses. -/
def ccf_dist_from_params (mult total_cn : ℚ) (alt_cnt ref_cnt : ℕ) (purity : ℚ)
    (grid_size : ℕ) : List ℚ :=
  if mult = 0 then (List.replicate grid_size (0 : ℚ)).set 0 1
  else
    let ccf_bins := linspace01 grid_size
    let dist := ccf_bins.map (fun c =>
      betaPdf (c * mult * purity / (total_cn * purity + 2 * (1 - purity)))
        (alt_cnt + 1) (ref_cnt + 1))
    dist.map (fun x => x / dist.sum)

/-- `cp_dist_from_params` (lines 134-158): as `ccf_dist_from_params` but without the
extra purity factor in the numerator of the allele-fraction map. -/
def cp_dist_from_params (mult total_cn : ℚ) (alt_cnt ref_cnt : ℕ) (purity : ℚ)
    (grid_size : ℕ) : List ℚ :=
  if mult = 0 then (List.replicate grid_size (0 : ℚ)).set 0 1
  else
    let ccf_bins := linspace01 grid_size
    let dist := ccf_bins.map (fun c =>
      betaPdf (c * mult / (total_cn * purity + 2 * (1 - purity)))
        (alt_cnt + 1) (ref_cnt + 1))
    dist.map (fun x => x / dist.sum)

/-- The first truncated copy inside `update_ccf_hist` (line 92):
`subc_ccf_dist1[int(subclonal_frac * 100):] = 0`, i.e. every bin at index
`≥ ⌊subclonal_frac * 100⌋` is zeroed (`int` truncation agrees with `⌊·⌋` on the
non-negative fractions the source passes). -/
def subc_ccf_dist1 (dist : List ℚ) (subclonal_frac : ℚ) : List ℚ :=
  (List.range dist.length).map
    (fun i => if (⌊subclonal_frac * 100⌋).toNat ≤ i then 0 else dist.getD i 0)

/-- The second truncated copy inside `update_ccf_hist` (line 93):
`subc_ccf_dist2[int((1 - subclonal_frac) * 100)] = 0`, which zeroes the single bin at
index `⌊(1 - subclonal_frac) * 100⌋` (not a tail slice).  On grids smaller than 101
a fractional copy number can push this hard-coded index past the end of the array,
where numpy raises `IndexError`; `List.set` models that out-of-range write as a
no-op. -/
def subc_ccf_dist2 (dist : List ℚ) (subclonal_frac : ℚ) : List ℚ :=
  dist.set (⌊(1 - subclonal_frac) * 100⌋).toNat 0

/-- `update_ccf_hist` (lines 89-105): add the two renormalized truncated copies of the
multiplicity-1 histogram to the running subclonal histogram, each weighted by the
binomial likelihood of its boundary allele fraction, skipping a copy whose sum is zero
(Python's `if sum_dist:` truthiness is `≠ 0`). -/
def update_ccf_hist (subc_hist : List ℚ) (subclonal_frac : ℚ) (dist_m1 : List ℚ)
    (purity total_cn : ℚ) (alt_cnt total_cov : ℕ) : List ℚ :=
  let d1 := subc_ccf_dist1 dist_m1 subclonal_frac
  let d2 := subc_ccf_dist2 dist_m1 subclonal_frac
  let sum_dist_1 := d1.sum
  let h1 :=
    if sum_dist_1 ≠ 0 then
      addV subc_hist
        (scaleV
          (binomPmf alt_cnt total_cov
            (subclonal_frac * purity / (total_cn * purity + 2 * (1 - purity))))
          (d1.map (fun x => x / sum_dist_1)))
    else subc_hist
  let sum_dist_2 := d2.sum
  if sum_dist_2 ≠ 0 then
    addV h1
      (scaleV
        (binomPmf alt_cnt total_cov
          ((1 - subclonal_frac) * purity / (total_cn * purity + 2 * (1 - purity))))
        (d2.map (fun x => x / sum_dist_2)))
  else h1

/-- The multiplicity-1 histogram `ccf_dist_m1` in `calc_ccf` (lines 30-33). -/
def ccf_dist_m1 (local_cn_a1 local_cn_a2 : ℚ) (alt_cnt ref_cnt : ℕ) (purity : ℚ)
    (grid_size : ℕ) (cp : Bool) : List ℚ :=
  if cp then
    cp_dist_from_params 1 (local_cn_a1 + local_cn_a2) alt_cnt ref_cnt purity grid_size
  else
    ccf_dist_from_params 1 (local_cn_a1 + local_cn_a2) alt_cnt ref_cnt purity grid_size

/-- `ccf_mode` in `calc_ccf` (line 34): `np.argmax(ccf_dist_m1) / 100.` — note the
hard-coded division by `100`, independent of `grid_size`. -/
def ccf_mode (local_cn_a1 local_cn_a2 : ℚ) (alt_cnt ref_cnt : ℕ) (purity : ℚ)
    (grid_size : ℕ) (cp : Bool) : ℚ :=
  (npArgmax (ccf_dist_m1 local_cn_a1 local_cn_a2 alt_cnt ref_cnt purity grid_size cp) : ℚ)
    / 100

/-- `af_mode` in `calc_ccf` (line 35). -/
def af_mode (local_cn_a1 local_cn_a2 : ℚ) (alt_cnt ref_cnt : ℕ) (purity : ℚ)
    (grid_size : ℕ) (cp : Bool) : ℚ :=
  ccf_mode local_cn_a1 local_cn_a2 alt_cnt ref_cnt purity grid_size cp * purity /
    ((local_cn_a1 + local_cn_a2) * purity + 2 * (1 - purity))

/-- `p_subclonal` in `calc_ccf` (line 36). -/
def p_subclonal (local_cn_a1 local_cn_a2 : ℚ) (alt_cnt ref_cnt : ℕ) (purity : ℚ)
    (grid_size : ℕ) (cp : Bool) : ℚ :=
  binomPmf alt_cnt (alt_cnt + ref_cnt)
    (af_mode local_cn_a1 local_cn_a2 alt_cnt ref_cnt purity grid_size cp)

/-- `p_clonal` in `calc_ccf` (lines 37-48): the multiplicity loop `np.arange(2,
clonal_cn_a2 + 1)` plus, for each allele with a non-zero subclonal fraction, the loop
`np.arange(subclonal_frac + 1, subclonal_cn)`. -/
def p_clonal (local_cn_a1 local_cn_a2 : ℚ) (alt_cnt ref_cnt : ℕ) (purity : ℚ) : ℚ :=
  let total_cn := local_cn_a1 + local_cn_a2
  let total_cov := alt_cnt + ref_cnt
  let c1 := get_clonal_cns local_cn_a1
  let c2 := get_clonal_cns local_cn_a2
  let s_main := ((npArange 2 (c2.1 + 1)).map
    (fun m => calc_mult_weight m purity total_cn alt_cnt total_cov)).sum
  let s_a1 :=
    if c1.2.2 ≠ 0 then
      ((npArange (c1.2.2 + 1) c1.2.1).map
        (fun m => calc_mult_weight m purity total_cn alt_cnt total_cov)).sum
    else 0
  let s_a2 :=
    if c2.2.2 ≠ 0 then
      ((npArange (c2.2.2 + 1) c2.2.1).map
        (fun m => calc_mult_weight m purity total_cn alt_cnt total_cov)).sum
    else 0
  s_main + s_a1 + s_a2

/-- The state of `subc_ccf_hist` after lines 51-54 of `calc_ccf`: zeros, plus the
multiplicity-1 histogram weighted by `p_subclonal` when the major allele's local copy
number is at least `1`. -/
def subc_hist0 (local_cn_a1 local_cn_a2 : ℚ) (alt_cnt ref_cnt : ℕ) (purity : ℚ)
    (grid_size : ℕ) (cp : Bool) : List ℚ :=
  if 1 ≤ local_cn_a2 then
    addV (List.replicate grid_size (0 : ℚ))
      (scaleV (p_subclonal local_cn_a1 local_cn_a2 alt_cnt ref_cnt purity grid_size cp)
        (ccf_dist_m1 local_cn_a1 local_cn_a2 alt_cnt ref_cnt purity grid_size cp))
  else List.replicate grid_size (0 : ℚ)

/-- The state of `subc_ccf_hist` after lines 56-57 of `calc_ccf` (the minor-allele
subclonal update). -/
def subc_hist1 (local_cn_a1 local_cn_a2 : ℚ) (alt_cnt ref_cnt : ℕ) (purity : ℚ)
    (grid_size : ℕ) (cp : Bool) : List ℚ :=
  if (get_clonal_cns local_cn_a1).2.2 ≠ 0 then
    update_ccf_hist (subc_hist0 local_cn_a1 local_cn_a2 alt_cnt ref_cnt purity
        grid_size cp)
      (get_clonal_cns local_cn_a1).2.2
      (ccf_dist_m1 local_cn_a1 local_cn_a2 alt_cnt ref_cnt purity grid_size cp)
      purity (local_cn_a1 + local_cn_a2) alt_cnt (alt_cnt + ref_cnt)
  else subc_hist0 local_cn_a1 local_cn_a2 alt_cnt ref_cnt purity grid_size cp

/-- The accumulated (pre-normalization) subclonal histogram `subc_ccf_hist` in
`calc_ccf` (lines 50-59; the sequential mutation of the accumulator is expressed as the
staged states `subc_hist0`, `subc_hist1` and the final major-allele update). -/
def subc_ccf_hist (local_cn_a1 local_cn_a2 : ℚ) (alt_cnt ref_cnt : ℕ) (purity : ℚ)
    (grid_size : ℕ) (cp : Bool) : List ℚ :=
  if (get_clonal_cns local_cn_a2).2.2 ≠ 0 then
    update_ccf_hist (subc_hist1 local_cn_a1 local_cn_a2 alt_cnt ref_cnt purity
        grid_size cp)
      (get_clonal_cns local_cn_a2).2.2
      (ccf_dist_m1 local_cn_a1 local_cn_a2 alt_cnt ref_cnt purity grid_size cp)
      purity (local_cn_a1 + local_cn_a2) alt_cnt (alt_cnt + ref_cnt)
  else subc_hist1 local_cn_a1 local_cn_a2 alt_cnt ref_cnt purity grid_size cp

/-- The clonal branch `clonal_ccf_hist` in `calc_ccf` (lines 62-64): a normalized
`Beta(alt_cnt + 1, 1)` density sampled on the CCF grid. -/
def clonal_ccf_hist (alt_cnt : ℕ) (grid_size : ℕ) : List ℚ :=
  let bins := linspace01 grid_size
  let dist := bins.map (fun x => betaPdf x (alt_cnt + 1) 1)
  dist.map (fun x => x / dist.sum)

/-- `calc_ccf` (lines 9-69): the final normalized mixture of the subclonal and clonal
branches. -/
def calc_ccf (local_cn_a1 local_cn_a2 : ℚ) (alt_cnt ref_cnt : ℕ) (purity : ℚ)
    (grid_size : ℕ) (cp : Bool) : List ℚ :=
  let subc := normV (subc_ccf_hist local_cn_a1 local_cn_a2 alt_cnt ref_cnt purity
    grid_size cp)
  let clonal := clonal_ccf_hist alt_cnt grid_size
  let mix := addV
    (scaleV (p_subclonal local_cn_a1 local_cn_a2 alt_cnt ref_cnt purity grid_size cp)
      subc)
    (scaleV (p_clonal local_cn_a1 local_cn_a2 alt_cnt ref_cnt purity) clonal)
  normV mix

/-! ### Vector toolkit -/

theorem scaleV_length (c : ℚ) (a : List ℚ) : (scaleV c a).length = a.length := by
  simp [scaleV]

theorem normV_length (a : List ℚ) : (normV a).length = a.length := by
  simp [normV]

theorem scaleV_sum (c : ℚ) (a : List ℚ) : (scaleV c a).sum = c * a.sum := by
  simpa [scaleV] using List.sum_map_mul_left a (fun x => x) c

theorem sum_map_div (a : List ℚ) (c : ℚ) :
    (a.map (fun x => x / c)).sum = a.sum / c := by
  induction a with
  | nil => simp
  | cons x xs ih => simp [ih, add_div]

theorem normV_sum (a : List ℚ) (h : a.sum ≠ 0) : (normV a).sum = 1 := by
  rw [normV, sum_map_div, div_self h]

theorem scaleV_replicate_zero (c : ℚ) (n : ℕ) :
    scaleV c (List.replicate n 0) = List.replicate n 0 := by
  simp [scaleV, List.map_replicate]

theorem addV_replicate_zero_left (a : List ℚ) (n : ℕ) (h : a.length = n) :
    addV (List.replicate n 0) a = a := by
  subst h
  induction a with
  | nil => simp [addV]
  | cons x xs ih => simpa [addV, List.replicate_succ] using ih

theorem addV_replicate_zero_right (a : List ℚ) (n : ℕ) (h : a.length = n) :
    addV a (List.replicate n 0) = a := by
  subst h
  induction a with
  | nil => simp [addV]
  | cons x xs ih => simpa [addV, List.replicate_succ] using ih

theorem normV_replicate_zero (n : ℕ) :
    normV (List.replicate n 0) = List.replicate n 0 := by
  simp [normV, List.map_replicate]

/-! ### `np.argmax` toolkit -/

theorem listMax_mem : ∀ {l : List ℚ}, l ≠ [] → listMax l ∈ l
  | [], h => absurd rfl h
  | [x], _ => by simp [listMax]
  | x :: y :: t, _ => by
    rw [listMax]
    rcases le_total x (listMax (y :: t)) with hle | hle
    · rw [max_eq_right hle]
      exact List.mem_cons_of_mem x (listMax_mem (by simp))
    · rw [max_eq_left hle]
      simp

theorem le_listMax : ∀ {l : List ℚ} {x : ℚ}, x ∈ l → x ≤ listMax l
  | [], _, h => absurd h (by simp)
  | [y], x, h => by
    simp only [List.mem_singleton] at h
    simp [listMax, h]
  | y :: z :: t, x, h => by
    rw [listMax]
    rcases List.mem_cons.mp h with rfl | h2
    · exact le_max_left _ _
    · exact le_trans (le_listMax h2) (le_max_right _ _)

theorem npArgmax_lt_length (l : List ℚ) (h : l ≠ []) : npArgmax l < l.length :=
  List.indexOf_lt_length.mpr (listMax_mem h)

theorem getElem_npArgmax (l : List ℚ) (hlt : npArgmax l < l.length) :
    l[npArgmax l] = listMax l :=
  List.getElem_indexOf hlt

theorem getElem_le_getElem_npArgmax (l : List ℚ) (i : ℕ) (hi : i < l.length)
    (hlt : npArgmax l < l.length) : l[i] ≤ l[npArgmax l] := by
  rw [getElem_npArgmax l hlt]
  exact le_listMax (List.getElem_mem hi)

/-! ### Density toolkit -/

theorem betaPdf_nonneg (x : ℚ) (a b : ℕ) : 0 ≤ betaPdf x a b := by
  rw [betaPdf]
  split
  · next h =>
    apply div_nonneg
    · exact mul_nonneg (mul_nonneg (pow_nonneg h.1 _) (pow_nonneg (by linarith [h.2]) _))
        (by positivity)
    · positivity
  · exact le_refl 0

theorem betaPdf_pos (x : ℚ) (a b : ℕ) (h0 : 0 < x) (h1 : x < 1) : 0 < betaPdf x a b := by
  rw [betaPdf, if_pos ⟨le_of_lt h0, le_of_lt h1⟩]
  have hfa : (0:ℚ) < (Nat.factorial (a - 1) : ℚ) := by positivity
  have hfb : (0:ℚ) < (Nat.factorial (b - 1) : ℚ) := by positivity
  have hfab : (0:ℚ) < (Nat.factorial (a + b - 1) : ℚ) := by positivity
  have h1x : (0:ℚ) < 1 - x := by linarith
  positivity

theorem betaPdf_zero_eq_zero (a b : ℕ) (ha : a ≠ 0) : betaPdf 0 (a + 1) b = 0 := by
  rw [betaPdf, if_pos (by norm_num)]
  simp [zero_pow ha]

theorem betaPdf_one_eq_zero (a b : ℕ) (hb : b ≠ 0) : betaPdf 1 a (b + 1) = 0 := by
  rw [betaPdf, if_pos (by norm_num)]
  simp [zero_pow hb]

theorem binomPmf_pos (k n : ℕ) (p : ℚ) (hk : k ≤ n) (h0 : 0 ≤ p) (h1 : p ≤ 1)
    (hz : p = 0 → k = 0) (ho : p = 1 → k = n) : 0 < binomPmf k n p := by
  rw [binomPmf]
  rcases eq_or_lt_of_le h0 with h0e | h0lt
  · have hk0 : k = 0 := hz h0e.symm
    subst hk0
    rw [← h0e]
    simp [Nat.choose_zero_right]
  · rcases eq_or_lt_of_le h1 with h1e | h1lt
    · have hkn : k = n := ho h1e
      subst hkn
      rw [h1e]
      simp [Nat.choose_self]
    · have hc : (0:ℚ) < (n.choose k : ℚ) := by
        exact_mod_cast Nat.choose_pos hk
      have h1p : (0:ℚ) < 1 - p := by linarith
      positivity

/-! ### `np.arange` and floor/ceil toolkit -/

theorem npArange_eq_nil {a b : ℚ} (h : b ≤ a) : npArange a b = [] := by
  rw [npArange]
  have hle : ⌈b - a⌉ ≤ 0 := by
    rw [show (0 : ℤ) = ((0 : ℕ) : ℤ) from rfl, Int.ceil_le]
    push_cast
    linarith
  have hz : (⌈b - a⌉).toNat = 0 := by omega
  rw [hz]
  simp

theorem sum_map_list_range (f : ℕ → ℚ) (n : ℕ) :
    ((List.range n).map f).sum = ∑ k in Finset.range n, f k := by
  induction n with
  | zero => simp
  | succ m ih =>
    rw [List.range_succ, Finset.sum_range_succ, List.map_append, List.sum_append, ih]
    simp

theorem npArange_map_sum (f : ℚ → ℚ) (a b : ℚ) :
    ((npArange a b).map f).sum =
      ∑ k in Finset.range (⌈b - a⌉).toNat, f (a + (k : ℚ)) := by
  rw [npArange, List.map_map]
  exact sum_map_list_range _ _

/-! ### `get_clonal_cns` toolkit -/

theorem get_clonal_cns_frac_nonneg (cn : ℚ) : 0 ≤ (get_clonal_cns cn).2.2 := by
  rw [get_clonal_cns]
  split
  · simp only [sub_nonneg]
    exact Int.floor_le cn
  · simp only [sub_nonneg]
    exact Int.le_ceil cn

theorem get_clonal_cns_frac_lt_one (cn : ℚ) : (get_clonal_cns cn).2.2 < 1 := by
  rw [get_clonal_cns]
  split
  · have := Int.lt_floor_add_one cn
    simp only
    linarith
  · have := Int.ceil_lt_add_one cn
    simp only
    linarith

theorem get_clonal_cns_int_frac_eq_zero (cn : ℚ) (z : ℤ) (h : cn = (z : ℚ)) :
    (get_clonal_cns cn).2.2 = 0 := by
  subst h
  rw [get_clonal_cns]
  split
  · simp [Int.floor_intCast]
  · simp [Int.ceil_intCast]

/-! ### Claim C6: zero-multiplicity histogram -/

/-- C6: for every grid size `≥ 1` (grid sizes are positive integers) and arbitrary other
arguments, both Beta CCF distribution builders at multiplicity `0` return the one-hot
vector of length `grid_size` with `1.0` at index `0` and `0` everywhere else. -/
theorem C6_zero_multiplicity_one_hot (total_cn : ℚ) (alt_cnt ref_cnt : ℕ) (purity : ℚ)
    (g : ℕ) (hg : 1 ≤ g) :
    ccf_dist_from_params 0 total_cn alt_cnt ref_cnt purity g =
        1 :: List.replicate (g - 1) 0 ∧
      cp_dist_from_params 0 total_cn alt_cnt ref_cnt purity g =
        1 :: List.replicate (g - 1) 0 := by
  obtain ⟨m, rfl⟩ : ∃ m, g = m + 1 := ⟨g - 1, by omega⟩
  rw [ccf_dist_from_params, cp_dist_from_params, if_pos rfl, if_pos rfl,
    List.replicate_succ, List.set_cons_zero]
  simp

/-- Witness for C6 at a concrete input. -/
theorem C6_witness :
    ccf_dist_from_params 0 3 5 7 (1/2) 4 = 1 :: List.replicate 3 0 ∧
      cp_dist_from_params 0 3 5 7 (1/2) 4 = 1 :: List.replicate 3 0 :=
  C6_zero_multiplicity_one_hot 3 5 7 (1/2) 4 (by norm_num)

/-! ### Claim C8: decomposition invariant -/

/-- C8: for every `cn ≥ 0`, `get_clonal_cns` returns clonal and subclonal parts that are
non-negative integers differing by at most `1`, and a subclonal fraction in `[0,1]`;
when `cn` is an integer the fraction is `0`. -/
theorem C8_decomposition_invariant (cn : ℚ) (h : 0 ≤ cn) :
    (∃ a : ℕ, (get_clonal_cns cn).1 = (a : ℚ)) ∧
      (∃ b : ℕ, (get_clonal_cns cn).2.1 = (b : ℚ)) ∧
      |(get_clonal_cns cn).1 - (get_clonal_cns cn).2.1| ≤ 1 ∧
      0 ≤ (get_clonal_cns cn).2.2 ∧ (get_clonal_cns cn).2.2 ≤ 1 ∧
      ((∃ z : ℤ, cn = (z : ℚ)) → (get_clonal_cns cn).2.2 = 0) := by
  have hfl : 0 ≤ ⌊cn⌋ := Int.floor_nonneg.mpr h
  have hcl : 0 ≤ ⌈cn⌉ := Int.ceil_nonneg h
  have hfc : ⌊cn⌋ ≤ ⌈cn⌉ := Int.floor_le_ceil cn
  have hcf : ⌈cn⌉ ≤ ⌊cn⌋ + 1 := Int.ceil_le_floor_add_one cn
  refine ⟨?_, ?_, ?_, get_clonal_cns_frac_nonneg cn,
    le_of_lt (get_clonal_cns_frac_lt_one cn), ?_⟩
  · rw [get_clonal_cns]
    split
    · refine ⟨(⌊cn⌋).toNat, ?_⟩
      show ((⌊cn⌋ : ℚ)) = ((⌊cn⌋.toNat : ℕ) : ℚ)
      exact_mod_cast (Int.toNat_of_nonneg hfl).symm
    · refine ⟨(⌈cn⌉).toNat, ?_⟩
      show ((⌈cn⌉ : ℚ)) = ((⌈cn⌉.toNat : ℕ) : ℚ)
      exact_mod_cast (Int.toNat_of_nonneg hcl).symm
  · rw [get_clonal_cns]
    split
    · refine ⟨(⌈cn⌉).toNat, ?_⟩
      show ((⌈cn⌉ : ℚ)) = ((⌈cn⌉.toNat : ℕ) : ℚ)
      exact_mod_cast (Int.toNat_of_nonneg hcl).symm
    · refine ⟨(⌊cn⌋).toNat, ?_⟩
      show ((⌊cn⌋ : ℚ)) = ((⌊cn⌋.toNat : ℕ) : ℚ)
      exact_mod_cast (Int.toNat_of_nonneg hfl).symm
  · rw [get_clonal_cns]
    split
    · rw [abs_sub_le_iff]
      constructor
      · have : ((⌊cn⌋ : ℚ)) ≤ (⌈cn⌉ : ℚ) := by exact_mod_cast hfc
        linarith
      · have : ((⌈cn⌉ : ℚ)) ≤ (⌊cn⌋ : ℚ) + 1 := by exact_mod_cast hcf
        linarith
    · rw [abs_sub_le_iff]
      constructor
      · have : ((⌈cn⌉ : ℚ)) ≤ (⌊cn⌋ : ℚ) + 1 := by exact_mod_cast hcf
        linarith
      · have : ((⌊cn⌋ : ℚ)) ≤ (⌈cn⌉ : ℚ) := by exact_mod_cast hfc
        linarith
  · rintro ⟨z, rfl⟩
    exact get_clonal_cns_int_frac_eq_zero _ z rfl

/-- Witness for C8 at `cn = 5/2`. -/
theorem C8_witness :
    (∃ a : ℕ, (get_clonal_cns (5/2)).1 = (a : ℚ)) ∧
      (∃ b : ℕ, (get_clonal_cns (5/2)).2.1 = (b : ℚ)) ∧
      |(get_clonal_cns (5/2)).1 - (get_clonal_cns (5/2)).2.1| ≤ 1 ∧
      0 ≤ (get_clonal_cns (5/2)).2.2 ∧ (get_clonal_cns (5/2)).2.2 ≤ 1 ∧
      ((∃ z : ℤ, (5/2 : ℚ) = (z : ℚ)) → (get_clonal_cns (5/2)).2.2 = 0) :=
  C8_decomposition_invariant (5/2) (by norm_num)

/-! ### Claim C10: the two mapping modes coincide at purity 1 -/

/-- C10: for every multiplicity, total copy number, read counts and grid size, at
`purity = 1` the cancer-cell-ploidy based builder returns exactly the same histogram as
the CCF based builder. -/
theorem C10_cp_eq_ccf_at_full_purity (mult total_cn : ℚ) (alt_cnt ref_cnt : ℕ)
    (g : ℕ) :
    cp_dist_from_params mult total_cn alt_cnt ref_cnt 1 g =
      ccf_dist_from_params mult total_cn alt_cnt ref_cnt 1 g := by
  rw [cp_dist_from_params, ccf_dist_from_params]
  split
  · rfl
  · simp only [mul_one]

/-! ### Claim C4: truncation of the two split copies (code bug in the second copy) -/

section
attribute [local semireducible] Rat.add Rat.mul Rat.inv Rat.sub

set_option maxRecDepth 16000 in
/-- C4 evaluation at a failing input: with subclonal fraction `3/10` and the uniform
multiplicity-1 histogram on 101 bins, the claimed truncation index for the second copy
is `70`, the first copy is indeed zero on the whole tail at or above `30`, but the
second copy zeroes ONLY bin `70`: bin `71` still holds `1/101 ≠ 0`, contradicting the
claim that every bin at or above `70` is zero. -/
theorem C4_second_copy_zeroes_single_bin :
    (⌊((1 : ℚ) - 3/10) * 100⌋).toNat = 70 ∧
      (subc_ccf_dist2 (List.replicate 101 ((1 : ℚ)/101)) (3/10)).getD 70 0 = 0 ∧
      (subc_ccf_dist2 (List.replicate 101 ((1 : ℚ)/101)) (3/10)).getD 71 0 = 1/101 ∧
      ((1 : ℚ)/101) ≠ 0 ∧
      (∀ i < 101, 30 ≤ i →
        (subc_ccf_dist1 (List.replicate 101 ((1 : ℚ)/101)) (3/10)).getD i 0 = 0) := by
  decide

end

/-! ### Claim C9: skip/renormalize semantics of `update_ccf_hist` -/

/-- C9: in `update_ccf_hist`, a truncated copy whose sum is zero is skipped and
contributes nothing (the result is exactly the pipeline without that branch); a copy
with non-zero sum is renormalized to sum `1` and added scaled by the binomial
likelihood of the boundary allele fraction derived from `f` (resp. `1-f`). -/
theorem C9_update_skip_and_renormalize (subc m1 : List ℚ) (f purity total_cn : ℚ)
    (alt cov : ℕ) :
    ((subc_ccf_dist1 m1 f).sum = 0 → (subc_ccf_dist2 m1 f).sum = 0 →
      update_ccf_hist subc f m1 purity total_cn alt cov = subc) ∧
    ((subc_ccf_dist1 m1 f).sum = 0 → (subc_ccf_dist2 m1 f).sum ≠ 0 →
      update_ccf_hist subc f m1 purity total_cn alt cov =
        addV subc
          (scaleV
            (binomPmf alt cov ((1 - f) * purity / (total_cn * purity + 2 * (1 - purity))))
            (normV (subc_ccf_dist2 m1 f))) ∧
      (normV (subc_ccf_dist2 m1 f)).sum = 1) ∧
    ((subc_ccf_dist1 m1 f).sum ≠ 0 → (subc_ccf_dist2 m1 f).sum = 0 →
      update_ccf_hist subc f m1 purity total_cn alt cov =
        addV subc
          (scaleV
            (binomPmf alt cov (f * purity / (total_cn * purity + 2 * (1 - purity))))
            (normV (subc_ccf_dist1 m1 f))) ∧
      (normV (subc_ccf_dist1 m1 f)).sum = 1) ∧
    ((subc_ccf_dist1 m1 f).sum ≠ 0 → (subc_ccf_dist2 m1 f).sum ≠ 0 →
      update_ccf_hist subc f m1 purity total_cn alt cov =
        addV
          (addV subc
            (scaleV
              (binomPmf alt cov (f * purity / (total_cn * purity + 2 * (1 - purity))))
              (normV (subc_ccf_dist1 m1 f))))
          (scaleV
            (binomPmf alt cov ((1 - f) * purity / (total_cn * purity + 2 * (1 - purity))))
            (normV (subc_ccf_dist2 m1 f))) ∧
      (normV (subc_ccf_dist1 m1 f)).sum = 1 ∧
      (normV (subc_ccf_dist2 m1 f)).sum = 1) := by
  refine ⟨fun h1 h2 => ?_, fun h1 h2 => ?_, fun h1 h2 => ?_, fun h1 h2 => ?_⟩
  · rw [update_ccf_hist]
    simp only [h1, h2, ne_eq, not_true_eq_false, if_false]
  · rw [update_ccf_hist]
    simp only [h1, ne_eq, not_true_eq_false, if_false, h2, not_false_eq_true, if_true]
    exact ⟨rfl, normV_sum _ h2⟩
  · rw [update_ccf_hist]
    simp only [h2, ne_eq, not_true_eq_false, if_false, h1, not_false_eq_true, if_true]
    exact ⟨rfl, normV_sum _ h1⟩
  · rw [update_ccf_hist]
    simp only [ne_eq, h1, not_false_eq_true, if_true, h2]
    exact ⟨rfl, normV_sum _ h1, normV_sum _ h2⟩

section
attribute [local semireducible] Rat.add Rat.mul Rat.inv Rat.sub

set_option maxRecDepth 16000 in
/-- Witness for C9: both truncated copies have non-zero sums at this concrete input and
the fourth case of the theorem applies. -/
theorem C9_witness :
    update_ccf_hist (List.replicate 101 (0 : ℚ)) (1/2) (List.replicate 101 ((1 : ℚ)/101))
        (1/2) 2 1 2 =
      addV
        (addV (List.replicate 101 (0 : ℚ))
          (scaleV
            (binomPmf 1 2 ((1/2 : ℚ) * (1/2) / (2 * (1/2) + 2 * (1 - 1/2))))
            (normV (subc_ccf_dist1 (List.replicate 101 ((1 : ℚ)/101)) (1/2)))))
        (scaleV
          (binomPmf 1 2 ((1 - (1/2 : ℚ)) * (1/2) / (2 * (1/2) + 2 * (1 - 1/2))))
          (normV (subc_ccf_dist2 (List.replicate 101 ((1 : ℚ)/101)) (1/2)))) ∧
    (normV (subc_ccf_dist1 (List.replicate 101 ((1 : ℚ)/101)) (1/2))).sum = 1 ∧
    (normV (subc_ccf_dist2 (List.replicate 101 ((1 : ℚ)/101)) (1/2))).sum = 1 :=
  (C9_update_skip_and_renormalize (List.replicate 101 (0 : ℚ))
    (List.replicate 101 ((1 : ℚ)/101)) (1/2) (1/2) 2 1 2).2.2.2
    (by decide) (by decide)

end

/-! ### Claim C5: the histogram mode and the subclonal weight -/

section
attribute [local semireducible] Rat.add Rat.mul Rat.inv Rat.sub

set_option maxRecDepth 16000 in
/-- C5 counterexample: at `grid_size = 51` the peak bin of the multiplicity-1 histogram
is `50`, so the claimed formula gives the grid value `50 / (51 - 1) = 1`, but the code
computes `ccf_mode = 50 / 100 = 1/2` (the divisor `100` is hard-coded). -/
theorem C5_counterexample :
    npArgmax (ccf_dist_m1 1 1 2 0 1 51 false) = 50 ∧
      ccf_mode 1 1 2 0 1 51 false = 1/2 ∧
      ccf_mode 1 1 2 0 1 51 false ≠
        (npArgmax (ccf_dist_m1 1 1 2 0 1 51 false) : ℚ) / ((51 : ℚ) - 1) := by
  refine ⟨by decide, by decide, ?_⟩
  intro h
  rw [show (npArgmax (ccf_dist_m1 1 1 2 0 1 51 false) : ℚ) = 50 by decide] at h
  rw [show ccf_mode 1 1 2 0 1 51 false = 1/2 by decide] at h
  norm_num at h

end

/-- C5 amended: only at the default `grid_size = 101` does `ccf_mode` equal the CCF grid
value `argmax / (grid_size - 1)` of the peak bin (the code divides by the constant
`100`); the implied allele fraction at the mode uses the CCF-based mapper at
multiplicity `1`, and `p_subclonal` is the binomial pmf of `alt_cnt` out of the total
coverage at that allele fraction. -/
theorem C5_amended_mode (local_cn_a1 local_cn_a2 : ℚ) (alt_cnt ref_cnt : ℕ)
    (purity : ℚ) (grid_size : ℕ) (cp : Bool) (hg : grid_size = 101) :
    ccf_mode local_cn_a1 local_cn_a2 alt_cnt ref_cnt purity grid_size cp =
      (npArgmax (ccf_dist_m1 local_cn_a1 local_cn_a2 alt_cnt ref_cnt purity grid_size cp)
          : ℚ) / ((grid_size : ℚ) - 1) ∧
    af_mode local_cn_a1 local_cn_a2 alt_cnt ref_cnt purity grid_size cp =
      ccf_mode local_cn_a1 local_cn_a2 alt_cnt ref_cnt purity grid_size cp * 1 * purity /
        ((local_cn_a1 + local_cn_a2) * purity + 2 * (1 - purity)) ∧
    p_subclonal local_cn_a1 local_cn_a2 alt_cnt ref_cnt purity grid_size cp =
      binomPmf alt_cnt (alt_cnt + ref_cnt)
        (af_mode local_cn_a1 local_cn_a2 alt_cnt ref_cnt purity grid_size cp) := by
  subst hg
  refine ⟨?_, ?_, rfl⟩
  · rw [ccf_mode]
    norm_num
  · rw [af_mode, mul_one]

/-- Witness for C5 at a concrete input with `grid_size = 101`. -/
theorem C5_witness :
    ccf_mode 1 1 2 0 1 101 false =
      (npArgmax (ccf_dist_m1 1 1 2 0 1 101 false) : ℚ) / ((101 : ℚ) - 1) ∧
    af_mode 1 1 2 0 1 101 false =
      ccf_mode 1 1 2 0 1 101 false * 1 * 1 / ((1 + 1) * 1 + 2 * (1 - 1)) ∧
    p_subclonal 1 1 2 0 1 101 false =
      binomPmf 2 (2 + 0) (af_mode 1 1 2 0 1 101 false) :=
  C5_amended_mode 1 1 2 0 1 101 false rfl

/-! ### Claim C3: the composition of `p_clonal` -/

theorem get_clonal_cns_parts_int (cn : ℚ) :
    (∃ u : ℤ, (get_clonal_cns cn).1 = (u : ℚ)) ∧
      ∃ v : ℤ, (get_clonal_cns cn).2.1 = (v : ℚ) := by
  rw [get_clonal_cns]
  split
  · exact ⟨⟨⌊cn⌋, rfl⟩, ⟨⌈cn⌉, rfl⟩⟩
  · exact ⟨⟨⌈cn⌉, rfl⟩, ⟨⌊cn⌋, rfl⟩⟩

theorem npArange_main_sum (c : ℚ) (u : ℤ) (hc : c = (u : ℚ)) (w : ℚ → ℚ) :
    ((npArange 2 (c + 1)).map w).sum = ∑ m in Finset.Icc 2 u.toNat, w (m : ℚ) := by
  subst hc
  rw [npArange_map_sum]
  have hceil : ⌈(u : ℚ) + 1 - 2⌉ = u - 1 := by
    rw [show (u : ℚ) + 1 - 2 = ((u - 1 : ℤ) : ℚ) by push_cast; ring, Int.ceil_intCast]
  rw [hceil, ← Nat.Ico_succ_right, Finset.sum_Ico_eq_sum_range]
  have hcard : u.toNat + 1 - 2 = (u - 1).toNat := by omega
  rw [hcard]
  apply Finset.sum_congr rfl
  intro k _
  congr 1
  push_cast
  ring

/-- Follows the words of claim C3, for comparison with the source `p_clonal`: the
subclonal-shift contributions sum over every INTEGER multiplicity strictly between the
subclonal fraction and the subclonal copy number (exclusive of the fraction itself),
instead of the source's fraction-offset values. -/
def p_clonal_intC3 (local_cn_a1 local_cn_a2 : ℚ) (alt_cnt ref_cnt : ℕ)
    (purity : ℚ) : ℚ :=
  let total_cn := local_cn_a1 + local_cn_a2
  let total_cov := alt_cnt + ref_cnt
  let c1 := get_clonal_cns local_cn_a1
  let c2 := get_clonal_cns local_cn_a2
  let s_main := ((npArange 2 (c2.1 + 1)).map
    (fun m => calc_mult_weight m purity total_cn alt_cnt total_cov)).sum
  let intShift := fun (frac sub : ℚ) =>
    (((List.range ((⌈sub⌉).toNat + 1)).filter
        (fun (m : ℕ) => decide (frac < (m : ℚ) ∧ (m : ℚ) < sub))).map
      (fun (m : ℕ) => calc_mult_weight (m : ℚ) purity total_cn alt_cnt total_cov)).sum
  s_main + (if c1.2.2 ≠ 0 then intShift c1.2.2 c1.2.1 else 0) +
    (if c2.2.2 ≠ 0 then intShift c2.2.2 c2.2.1 else 0)

section
attribute [local semireducible] Rat.add Rat.mul Rat.inv Rat.sub

set_option maxRecDepth 4000 in
/-- C3 counterexample: at `local_cn_a1 = 5/2`, `local_cn_a2 = 1`, `alt_cnt = 2`,
`ref_cnt = 0`, `purity = 1` the source sums the weights at the fractional multiplicities
`3/2` and `5/2` (giving `34/49`), not at the integers `1` and `2` strictly between the
fraction `1/2` and the subclonal copy number `3` (which would give `20/49`). -/
theorem C3_counterexample :
    p_clonal (5/2) 1 2 0 1 = 34/49 ∧ p_clonal_intC3 (5/2) 1 2 0 1 = 20/49 ∧
      p_clonal (5/2) 1 2 0 1 ≠ p_clonal_intC3 (5/2) 1 2 0 1 :=
  ⟨by decide, by decide, by decide⟩

end

/-- C3 amended: `p_clonal` equals the sum of the binomial multiplicity weight over the
integers from `2` up to and including the major allele's clonal copy number, plus, for
each allele with a non-zero subclonal fraction, the sum of the weight over the values
`subclonal_fraction + 1, subclonal_fraction + 2, ...` (unit steps starting one above the
fraction — NOT integers) strictly below that allele's `subclonal_cn`. -/
theorem C3_amended_p_clonal (local_cn_a1 local_cn_a2 : ℚ) (alt_cnt ref_cnt : ℕ)
    (purity : ℚ) :
    p_clonal local_cn_a1 local_cn_a2 alt_cnt ref_cnt purity =
      (∑ m in Finset.Icc 2 ((⌊(get_clonal_cns local_cn_a2).1⌋).toNat),
        calc_mult_weight (m : ℚ) purity (local_cn_a1 + local_cn_a2) alt_cnt
          (alt_cnt + ref_cnt))
      + (if (get_clonal_cns local_cn_a1).2.2 ≠ 0 then
          ∑ k in Finset.range
            ((⌈(get_clonal_cns local_cn_a1).2.1 - (get_clonal_cns local_cn_a1).2.2 -
              1⌉).toNat),
            calc_mult_weight ((get_clonal_cns local_cn_a1).2.2 + 1 + (k : ℚ)) purity
              (local_cn_a1 + local_cn_a2) alt_cnt (alt_cnt + ref_cnt)
        else 0)
      + (if (get_clonal_cns local_cn_a2).2.2 ≠ 0 then
          ∑ k in Finset.range
            ((⌈(get_clonal_cns local_cn_a2).2.1 - (get_clonal_cns local_cn_a2).2.2 -
              1⌉).toNat),
            calc_mult_weight ((get_clonal_cns local_cn_a2).2.2 + 1 + (k : ℚ)) purity
              (local_cn_a1 + local_cn_a2) alt_cnt (alt_cnt + ref_cnt)
        else 0) := by
  obtain ⟨⟨u2, hu2⟩, -⟩ := get_clonal_cns_parts_int local_cn_a2
  simp only [p_clonal]
  have hmain :
      ((npArange 2 ((get_clonal_cns local_cn_a2).1 + 1)).map
        (fun m => calc_mult_weight m purity (local_cn_a1 + local_cn_a2) alt_cnt
          (alt_cnt + ref_cnt))).sum =
      ∑ m in Finset.Icc 2 ((⌊(get_clonal_cns local_cn_a2).1⌋).toNat),
        calc_mult_weight (m : ℚ) purity (local_cn_a1 + local_cn_a2) alt_cnt
          (alt_cnt + ref_cnt) := by
    rw [npArange_main_sum _ u2 hu2, hu2, Int.floor_intCast]
  have ha1 :
      ((npArange ((get_clonal_cns local_cn_a1).2.2 + 1)
          (get_clonal_cns local_cn_a1).2.1).map
        (fun m => calc_mult_weight m purity (local_cn_a1 + local_cn_a2) alt_cnt
          (alt_cnt + ref_cnt))).sum =
      ∑ k in Finset.range
        ((⌈(get_clonal_cns local_cn_a1).2.1 - (get_clonal_cns local_cn_a1).2.2 -
          1⌉).toNat),
        calc_mult_weight ((get_clonal_cns local_cn_a1).2.2 + 1 + (k : ℚ)) purity
          (local_cn_a1 + local_cn_a2) alt_cnt (alt_cnt + ref_cnt) := by
    rw [npArange_map_sum,
      show (get_clonal_cns local_cn_a1).2.1 - ((get_clonal_cns local_cn_a1).2.2 + 1) =
        (get_clonal_cns local_cn_a1).2.1 - (get_clonal_cns local_cn_a1).2.2 - 1 by ring]
  have ha2 :
      ((npArange ((get_clonal_cns local_cn_a2).2.2 + 1)
          (get_clonal_cns local_cn_a2).2.1).map
        (fun m => calc_mult_weight m purity (local_cn_a1 + local_cn_a2) alt_cnt
          (alt_cnt + ref_cnt))).sum =
      ∑ k in Finset.range
        ((⌈(get_clonal_cns local_cn_a2).2.1 - (get_clonal_cns local_cn_a2).2.2 -
          1⌉).toNat),
        calc_mult_weight ((get_clonal_cns local_cn_a2).2.2 + 1 + (k : ℚ)) purity
          (local_cn_a1 + local_cn_a2) alt_cnt (alt_cnt + ref_cnt) := by
    rw [npArange_map_sum,
      show (get_clonal_cns local_cn_a2).2.1 - ((get_clonal_cns local_cn_a2).2.2 + 1) =
        (get_clonal_cns local_cn_a2).2.1 - (get_clonal_cns local_cn_a2).2.2 - 1 by ring]
  rw [hmain, ha1, ha2]

/-! ### Multiplicity-1 histogram machinery, for any grid size and mapping mode -/

theorem denom_pos (T p : ℚ) (hT : 1 ≤ T) (hp0 : 0 < p) (hp1 : p ≤ 1) :
    0 < T * p + 2 * (1 - p) ∧ p ≤ T * p + 2 * (1 - p) := by
  constructor
  · nlinarith [mul_nonneg (sub_nonneg.mpr hT) hp0.le]
  · nlinarith [mul_nonneg (sub_nonneg.mpr hT) hp0.le]

theorem denom_ge_one (T p : ℚ) (hT : 1 ≤ T) (hp0 : 0 ≤ p) (hp1 : p ≤ 1) :
    1 ≤ T * p + 2 * (1 - p) := by
  nlinarith [mul_nonneg (sub_nonneg.mpr hT) hp0]

theorem cond_num_pos (cp : Bool) (p : ℚ) (hp0 : 0 < p) : 0 < cond cp 1 p := by
  cases cp
  · exact hp0
  · norm_num

theorem cond_num_le_denom (cp : Bool) (T p : ℚ) (hT : 1 ≤ T) (hp0 : 0 < p)
    (hp1 : p ≤ 1) : cond cp 1 p ≤ T * p + 2 * (1 - p) := by
  cases cp
  · exact (denom_pos T p hT hp0 hp1).2
  · exact denom_ge_one T p hT hp0.le hp1

theorem ccf_dist_m1_shape (a1 a2 : ℚ) (alt ref : ℕ) (p : ℚ) (g : ℕ) (cp : Bool) :
    ccf_dist_m1 a1 a2 alt ref p g cp =
      ((List.range g).map (fun (i : ℕ) =>
        betaPdf ((i : ℚ) / ((g : ℚ) - 1) * cond cp 1 p /
          ((a1 + a2) * p + 2 * (1 - p))) (alt + 1) (ref + 1))).map
        (fun x => x /
          ((List.range g).map (fun (i : ℕ) =>
            betaPdf ((i : ℚ) / ((g : ℚ) - 1) * cond cp 1 p /
              ((a1 + a2) * p + 2 * (1 - p))) (alt + 1) (ref + 1))).sum) := by
  cases cp
  · have hR : (linspace01 g).map (fun c =>
        betaPdf (c * 1 * p / ((a1 + a2) * p + 2 * (1 - p))) (alt + 1) (ref + 1)) =
        (List.range g).map (fun (i : ℕ) =>
          betaPdf ((i : ℚ) / ((g : ℚ) - 1) * cond false 1 p /
            ((a1 + a2) * p + 2 * (1 - p))) (alt + 1) (ref + 1)) := by
      rw [linspace01, List.map_map]
      apply List.map_congr_left
      intro i _
      simp only [Function.comp_apply, cond_false, mul_one]
    rw [ccf_dist_m1, if_neg (by simp), ccf_dist_from_params, if_neg one_ne_zero]
    show ((linspace01 g).map (fun c =>
        betaPdf (c * 1 * p / ((a1 + a2) * p + 2 * (1 - p)))
          (alt + 1) (ref + 1))).map
        (fun x => x / ((linspace01 g).map (fun c =>
          betaPdf (c * 1 * p / ((a1 + a2) * p + 2 * (1 - p)))
            (alt + 1) (ref + 1))).sum) = _
    rw [hR]
  · have hR : (linspace01 g).map (fun c =>
        betaPdf (c * 1 / ((a1 + a2) * p + 2 * (1 - p))) (alt + 1) (ref + 1)) =
        (List.range g).map (fun (i : ℕ) =>
          betaPdf ((i : ℚ) / ((g : ℚ) - 1) * cond true 1 p /
            ((a1 + a2) * p + 2 * (1 - p))) (alt + 1) (ref + 1)) := by
      rw [linspace01, List.map_map]
      apply List.map_congr_left
      intro i _
      simp only [Function.comp_apply, cond_true]
    rw [ccf_dist_m1, if_pos rfl, cp_dist_from_params, if_neg one_ne_zero]
    show ((linspace01 g).map (fun c =>
        betaPdf (c * 1 / ((a1 + a2) * p + 2 * (1 - p))) (alt + 1) (ref + 1))).map
        (fun x => x / ((linspace01 g).map (fun c =>
          betaPdf (c * 1 / ((a1 + a2) * p + 2 * (1 - p)))
            (alt + 1) (ref + 1))).sum) = _
    rw [hR]

theorem raws_sum_pos (a1 a2 : ℚ) (alt ref : ℕ) (p : ℚ) (g : ℕ) (cp : Bool)
    (hT : 1 ≤ a1 + a2) (hp0 : 0 < p) (hp1 : p ≤ 1) (hg : 3 ≤ g) :
    0 < ((List.range g).map (fun (i : ℕ) =>
      betaPdf ((i : ℚ) / ((g : ℚ) - 1) * cond cp 1 p /
        ((a1 + a2) * p + 2 * (1 - p))) (alt + 1) (ref + 1))).sum := by
  obtain ⟨hD, hpD⟩ := denom_pos (a1 + a2) p hT hp0 hp1
  have hq0 : 0 < cond cp 1 p := cond_num_pos cp p hp0
  have hqD : cond cp 1 p ≤ (a1 + a2) * p + 2 * (1 - p) :=
    cond_num_le_denom cp (a1 + a2) p hT hp0 hp1
  have hg2 : (2 : ℚ) ≤ (g : ℚ) - 1 := by
    have h3 : (3 : ℚ) ≤ (g : ℚ) := by exact_mod_cast hg
    linarith
  have hgpos : (0 : ℚ) < (g : ℚ) - 1 := by linarith
  have hnn : ∀ x ∈ (List.range g).map (fun (i : ℕ) =>
      betaPdf ((i : ℚ) / ((g : ℚ) - 1) * cond cp 1 p /
        ((a1 + a2) * p + 2 * (1 - p))) (alt + 1) (ref + 1)), 0 ≤ x := by
    intro x hx
    rcases List.mem_map.mp hx with ⟨i, -, rfl⟩
    exact betaPdf_nonneg _ _ _
  have h1mem : betaPdf ((1 : ℚ) / ((g : ℚ) - 1) * cond cp 1 p /
      ((a1 + a2) * p + 2 * (1 - p))) (alt + 1) (ref + 1) ∈
      (List.range g).map (fun (i : ℕ) =>
        betaPdf ((i : ℚ) / ((g : ℚ) - 1) * cond cp 1 p /
          ((a1 + a2) * p + 2 * (1 - p))) (alt + 1) (ref + 1)) := by
    apply List.mem_map.mpr
    exact ⟨1, List.mem_range.mpr (by omega), by norm_num⟩
  have h1pos : 0 < betaPdf ((1 : ℚ) / ((g : ℚ) - 1) * cond cp 1 p /
      ((a1 + a2) * p + 2 * (1 - p))) (alt + 1) (ref + 1) := by
    apply betaPdf_pos
    · positivity
    · rw [div_lt_one hD]
      have h1 : (1 : ℚ) / ((g : ℚ) - 1) * cond cp 1 p ≤ cond cp 1 p / 2 := by
        rw [div_mul_eq_mul_div, one_mul, div_le_div_iff₀ hgpos (by norm_num)]
        nlinarith
      nlinarith
  exact lt_of_lt_of_le h1pos (List.single_le_sum hnn _ h1mem)

theorem ccf_dist_m1_props_grid (a1 a2 : ℚ) (alt ref : ℕ) (p : ℚ) (g : ℕ) (cp : Bool)
    (hT : 1 ≤ a1 + a2) (hp0 : 0 < p) (hp1 : p ≤ 1) (hg : 3 ≤ g) :
    (ccf_dist_m1 a1 a2 alt ref p g cp).length = g ∧
      (∀ x ∈ ccf_dist_m1 a1 a2 alt ref p g cp, 0 ≤ x) ∧
      (ccf_dist_m1 a1 a2 alt ref p g cp).sum = 1 := by
  have hS := raws_sum_pos a1 a2 alt ref p g cp hT hp0 hp1 hg
  rw [ccf_dist_m1_shape]
  refine ⟨by simp, ?_, ?_⟩
  · intro x hx
    rcases List.mem_map.mp hx with ⟨y, hy, rfl⟩
    rcases List.mem_map.mp hy with ⟨i, -, rfl⟩
    exact div_nonneg (betaPdf_nonneg _ _ _) hS.le
  · rw [sum_map_div, div_self hS.ne']

set_option maxRecDepth 4000 in
theorem p_subclonal_props_grid (a1 a2 : ℚ) (alt ref : ℕ) (p : ℚ) (g : ℕ) (cp : Bool)
    (hT : 1 ≤ a1 + a2) (hp0 : 0 < p) (hp1 : p ≤ 1) (hg : 3 ≤ g) (hg101 : g ≤ 101) :
    0 < p_subclonal a1 a2 alt ref p g cp ∧
      0 ≤ af_mode a1 a2 alt ref p g cp ∧
      af_mode a1 a2 alt ref p g cp ≤ 1 := by
  obtain ⟨hD, hpD⟩ := denom_pos (a1 + a2) p hT hp0 hp1
  have hq0 : 0 < cond cp 1 p := cond_num_pos cp p hp0
  have hqD : cond cp 1 p ≤ (a1 + a2) * p + 2 * (1 - p) :=
    cond_num_le_denom cp (a1 + a2) p hT hp0 hp1
  have hg2 : (2 : ℚ) ≤ (g : ℚ) - 1 := by
    have h3 : (3 : ℚ) ≤ (g : ℚ) := by exact_mod_cast hg
    linarith
  have hgpos : (0 : ℚ) < (g : ℚ) - 1 := by linarith
  set raws := (List.range g).map (fun (i : ℕ) =>
    betaPdf ((i : ℚ) / ((g : ℚ) - 1) * cond cp 1 p /
      ((a1 + a2) * p + 2 * (1 - p))) (alt + 1) (ref + 1)) with hraws
  have hS : 0 < raws.sum := raws_sum_pos a1 a2 alt ref p g cp hT hp0 hp1 hg
  have h1pos : 0 < betaPdf ((1 : ℚ) / ((g : ℚ) - 1) * cond cp 1 p /
      ((a1 + a2) * p + 2 * (1 - p))) (alt + 1) (ref + 1) := by
    apply betaPdf_pos
    · positivity
    · rw [div_lt_one hD]
      have h1 : (1 : ℚ) / ((g : ℚ) - 1) * cond cp 1 p ≤ cond cp 1 p / 2 := by
        rw [div_mul_eq_mul_div, one_mul, div_le_div_iff₀ hgpos (by norm_num)]
        nlinarith
      nlinarith
  have hshape : ccf_dist_m1 a1 a2 alt ref p g cp =
      raws.map (fun x => x / raws.sum) := ccf_dist_m1_shape a1 a2 alt ref p g cp
  have hlen : (ccf_dist_m1 a1 a2 alt ref p g cp).length = g := by
    rw [hshape, hraws]
    simp
  set j := npArgmax (ccf_dist_m1 a1 a2 alt ref p g cp) with hjdef
  have hjlt : j < (ccf_dist_m1 a1 a2 alt ref p g cp).length := by
    apply npArgmax_lt_length
    intro h
    rw [h] at hlen
    simp at hlen
    omega
  have hgj : ∀ (i : ℕ) (hi : i < (ccf_dist_m1 a1 a2 alt ref p g cp).length),
      (ccf_dist_m1 a1 a2 alt ref p g cp)[i] =
        betaPdf ((i : ℚ) / ((g : ℚ) - 1) * cond cp 1 p /
          ((a1 + a2) * p + 2 * (1 - p))) (alt + 1) (ref + 1) / raws.sum := by
    intro i hi
    rw [List.getElem_of_eq hshape]
    rw [List.getElem_map]
    congr 1
    rw [List.getElem_of_eq hraws]
    rw [List.getElem_map, List.getElem_range]
  have hmax := getElem_le_getElem_npArgmax (ccf_dist_m1 a1 a2 alt ref p g cp) 1
    (by omega) hjlt
  rw [hgj 1 (by omega), hgj _ hjlt] at hmax
  have hraw_le := (div_le_div_iff_of_pos_right hS).mp hmax
  have hrawj : 0 < betaPdf
      ((j : ℚ) / ((g : ℚ) - 1) *
        cond cp 1 p / ((a1 + a2) * p + 2 * (1 - p))) (alt + 1) (ref + 1) := by
    push_cast at hraw_le ⊢
    exact lt_of_lt_of_le h1pos hraw_le
  have hafj : af_mode a1 a2 alt ref p g cp =
      (j : ℚ) / 100 * p /
        ((a1 + a2) * p + 2 * (1 - p)) := by
    rw [af_mode, ccf_mode, ← hjdef]
  have hjg : j < g := by omega
  have hj100 : (j : ℚ) / 100 ≤ 1 := by
    rw [div_le_one (by norm_num)]
    have h100 : j ≤ 100 := by omega
    exact_mod_cast h100
  have haf0 : 0 ≤ af_mode a1 a2 alt ref p g cp := by
    rw [hafj]
    exact div_nonneg (mul_nonneg (div_nonneg (Nat.cast_nonneg _) (by norm_num))
      hp0.le) hD.le
  have haf1 : af_mode a1 a2 alt ref p g cp ≤ 1 := by
    rw [hafj, div_le_one hD]
    nlinarith [mul_nonneg (sub_nonneg.mpr hj100) hp0.le]
  refine ⟨?_, haf0, haf1⟩
  rw [p_subclonal]
  apply binomPmf_pos alt (alt + ref) _ (by omega) haf0 haf1
  · intro h0
    rw [hafj] at h0
    have hjz : (j : ℚ) = 0 := by
      rcases div_eq_zero_iff.mp h0 with hnum | hden
      · rcases mul_eq_zero.mp hnum with hja | hpz
        · rcases div_eq_zero_iff.mp hja with h | h
          · exact h
          · norm_num at h
        · exact absurd hpz hp0.ne'
      · exact absurd hden hD.ne'
    by_contra halt
    rw [hjz] at hrawj
    have harg : (0 : ℚ) / ((g : ℚ) - 1) * cond cp 1 p /
        ((a1 + a2) * p + 2 * (1 - p)) = 0 := by
      rw [zero_div, zero_mul, zero_div]
    rw [harg, betaPdf_zero_eq_zero alt (ref + 1) halt] at hrawj
    exact absurd hrawj (lt_irrefl 0)
  · intro h1
    rw [hafj] at h1
    rw [div_eq_one_iff_eq hD.ne'] at h1
    have hle1 : (j : ℚ) / 100 * p ≤ p := by
      nlinarith [mul_nonneg (sub_nonneg.mpr hj100) hp0.le]
    have hpeqD : p = (a1 + a2) * p + 2 * (1 - p) := le_antisymm hpD (by linarith)
    have h1le : 1 ≤ p := by
      nlinarith [mul_nonneg (sub_nonneg.mpr hT) hp0.le]
    have hpone : p = 1 := le_antisymm hp1 h1le
    have hTeq : a1 + a2 = 1 := by
      rw [hpone] at hpeqD
      linarith
    have hDeq : (a1 + a2) * p + 2 * (1 - p) = 1 := by
      rw [hpone, hTeq]
      ring
    have hjQ : (j : ℚ) = 100 := by
      have hx : (j : ℚ) / 100 * p = 1 := by rw [h1, hDeq]
      rw [hpone] at hx
      rw [mul_one, div_eq_one_iff_eq (by norm_num)] at hx
      exact hx
    have hjn : j = 100 := by
      exact_mod_cast hjQ
    have hgeq : g = 101 := by omega
    have hnum1 : cond cp 1 p = 1 := by
      cases cp
      · exact hpone
      · rfl
    have harg : (j : ℚ) / ((g : ℚ) - 1) *
        cond cp 1 p / ((a1 + a2) * p + 2 * (1 - p)) = 1 := by
      rw [hjQ, hgeq, hnum1, hDeq]
      norm_num
    rw [harg] at hrawj
    have href : ref = 0 := by
      by_contra href
      rw [betaPdf_one_eq_zero (alt + 1) ref href] at hrawj
      exact absurd hrawj (lt_irrefl 0)
    omega

theorem ccf_dist_m1_props (a1 a2 : ℚ) (alt ref : ℕ) (p : ℚ) (hT : 1 ≤ a1 + a2)
    (hp0 : 0 < p) (hp1 : p ≤ 1) :
    (ccf_dist_m1 a1 a2 alt ref p 101 false).length = 101 ∧
      (∀ x ∈ ccf_dist_m1 a1 a2 alt ref p 101 false, 0 ≤ x) ∧
      (ccf_dist_m1 a1 a2 alt ref p 101 false).sum = 1 :=
  ccf_dist_m1_props_grid a1 a2 alt ref p 101 false hT hp0 hp1 (by norm_num)

theorem p_subclonal_props (a1 a2 : ℚ) (alt ref : ℕ) (p : ℚ) (hT : 1 ≤ a1 + a2)
    (hp0 : 0 < p) (hp1 : p ≤ 1) :
    0 < p_subclonal a1 a2 alt ref p 101 false ∧
      0 ≤ af_mode a1 a2 alt ref p 101 false ∧
      af_mode a1 a2 alt ref p 101 false ≤ 1 :=
  p_subclonal_props_grid a1 a2 alt ref p 101 false hT hp0 hp1 (by norm_num)
    (by norm_num)

/-! ### `update_ccf_hist` and subclonal accumulator machinery -/

theorem scaleV_zero (a : List ℚ) : scaleV 0 a = List.replicate a.length 0 := by
  simp only [scaleV, zero_mul]
  exact List.map_const' a 0

theorem clonal_ccf_hist_length (alt g : ℕ) : (clonal_ccf_hist alt g).length = g := by
  simp [clonal_ccf_hist, linspace01]

theorem get_clonal_cns_zero : get_clonal_cns 0 = (0, 0, 0) := by
  rw [get_clonal_cns, if_neg (by norm_num)]
  norm_num

theorem p_clonal_zero_cn (alt ref : ℕ) (p : ℚ) : p_clonal 0 0 alt ref p = 0 := by
  have hnil : npArange 2 (1 : ℚ) = [] := npArange_eq_nil (by norm_num)
  simp [p_clonal, get_clonal_cns_zero, hnil]

theorem subc_ccf_hist_of_no_major (a1 a2 : ℚ) (alt ref : ℕ) (p : ℚ) (g : ℕ)
    (cp : Bool) (ha2 : ¬ 1 ≤ a2) (hf1 : (get_clonal_cns a1).2.2 = 0)
    (hf2 : (get_clonal_cns a2).2.2 = 0) :
    subc_ccf_hist a1 a2 alt ref p g cp = List.replicate g 0 := by
  rw [subc_ccf_hist, if_neg (by simp [hf2]), subc_hist1, if_neg (by simp [hf1]),
    subc_hist0, if_neg ha2]

theorem calc_ccf_of_degenerate (a1 a2 : ℚ) (alt ref : ℕ) (p : ℚ) (g : ℕ) (cp : Bool)
    (hs : subc_ccf_hist a1 a2 alt ref p g cp = List.replicate g 0)
    (hp : p_clonal a1 a2 alt ref p = 0) :
    calc_ccf a1 a2 alt ref p g cp = List.replicate g 0 := by
  rw [calc_ccf, hs, hp, normV_replicate_zero, scaleV_replicate_zero, scaleV_zero,
    clonal_ccf_hist_length, addV_replicate_zero_left _ _ (by simp),
    normV_replicate_zero]

/-! ### Claim C7: no guard on the zero denominator / zero-sum normalizations -/

/-- C7 evaluation at the failing input `local_cn_a1 = local_cn_a2 = 0`, `purity = 1`:
the allele-fraction denominator `total_cn * purity + 2 * (1 - purity)` is exactly `0`,
no error is raised anywhere (every function is total), and `calc_ccf` returns the
all-zero vector — the exact-arithmetic shadow of the NaN histogram the float code
produces — whose bins sum to `0`, not `1`. -/
theorem C7_no_guard_total_cn_zero :
    ((0 : ℚ) + 0) * 1 + 2 * (1 - 1) = 0 ∧
      calc_ccf 0 0 20 20 1 101 false = List.replicate 101 0 ∧
      (calc_ccf 0 0 20 20 1 101 false).sum = 0 := by
  have hcc : calc_ccf 0 0 20 20 1 101 false = List.replicate 101 0 :=
    calc_ccf_of_degenerate 0 0 20 20 1 101 false
      (subc_ccf_hist_of_no_major 0 0 20 20 1 101 false (by norm_num)
        (by rw [get_clonal_cns_zero]) (by rw [get_clonal_cns_zero]))
      (p_clonal_zero_cn 20 20 1)
  refine ⟨by norm_num, hcc, ?_⟩
  rw [hcc]
  simp

/-! ### Claim C2: the diploid clonal end-to-end example -/

theorem normV_scaleV (c : ℚ) (hc : c ≠ 0) (v : List ℚ) :
    normV (scaleV c v) = normV v := by
  rw [normV, normV, scaleV_sum, scaleV, List.map_map]
  apply List.map_congr_left
  intro a _
  simp only [Function.comp_apply]
  rw [mul_div_mul_left a v.sum hc]

theorem normV_of_sum_one (v : List ℚ) (h : v.sum = 1) : normV v = v := by
  rw [normV, h]
  simp

theorem get_clonal_cns_one : get_clonal_cns 1 = (1, 1, 0) := by
  rw [get_clonal_cns, if_neg (by norm_num)]
  norm_num

/-- C2: at `local_cn_a1 = local_cn_a2 = 1`, `alt_cnt = ref_cnt = 20`, `purity = 1`,
`grid_size = 101`, the multiplicity loop is empty and both subclonal fractions are zero,
so `p_clonal = 0`; the returned histogram equals the normalized subclonal branch
exactly, and that branch is the multiplicity-1 CCF histogram. -/
theorem C2_end_to_end_diploid :
    p_clonal 1 1 20 20 1 = 0 ∧
      (get_clonal_cns 1).2.2 = 0 ∧
      calc_ccf 1 1 20 20 1 101 false = normV (subc_ccf_hist 1 1 20 20 1 101 false) ∧
      normV (subc_ccf_hist 1 1 20 20 1 101 false) =
        ccf_dist_m1 1 1 20 20 1 101 false := by
  have hfrac : (get_clonal_cns (1 : ℚ)).2.2 = 0 := by rw [get_clonal_cns_one]
  have hnil : npArange 2 ((1 : ℚ) + 1) = [] := npArange_eq_nil (by norm_num)
  have hpcl : p_clonal 1 1 20 20 1 = 0 := by
    simp [p_clonal, get_clonal_cns_one, hnil]
  have hT : (1 : ℚ) ≤ 1 + 1 := by norm_num
  obtain ⟨hm1len, hm1nn, hm1sum⟩ := ccf_dist_m1_props 1 1 20 20 1 hT
    (by norm_num) (by norm_num)
  obtain ⟨hpsub, -, -⟩ := p_subclonal_props 1 1 20 20 1 hT (by norm_num) (by norm_num)
  have hsubc : subc_ccf_hist 1 1 20 20 1 101 false =
      scaleV (p_subclonal 1 1 20 20 1 101 false)
        (ccf_dist_m1 1 1 20 20 1 101 false) := by
    rw [subc_ccf_hist, if_neg (by simp [hfrac]), subc_hist1, if_neg (by simp [hfrac]),
      subc_hist0, if_pos le_rfl,
      addV_replicate_zero_left _ _ (by rw [scaleV_length, hm1len])]
  have hsubc_sum : (subc_ccf_hist 1 1 20 20 1 101 false).sum =
      p_subclonal 1 1 20 20 1 101 false := by
    rw [hsubc, scaleV_sum, hm1sum, mul_one]
  have hnorm_subc : normV (subc_ccf_hist 1 1 20 20 1 101 false) =
      ccf_dist_m1 1 1 20 20 1 101 false := by
    rw [hsubc, normV_scaleV _ hpsub.ne', normV_of_sum_one _ hm1sum]
  have hnsum : (normV (subc_ccf_hist 1 1 20 20 1 101 false)).sum = 1 := by
    rw [hnorm_subc, hm1sum]
  refine ⟨hpcl, hfrac, ?_, hnorm_subc⟩
  rw [calc_ccf, hpcl, scaleV_zero, clonal_ccf_hist_length,
    addV_replicate_zero_right _ _
      (by rw [scaleV_length, normV_length, hsubc, scaleV_length, hm1len]),
    normV_scaleV _ hpsub.ne', normV_of_sum_one _ hnsum]
/-! ### Counterexample machinery: failures of the normalization claim outside the
amended domain (grid sizes 1, 2 and 243, and inputs with no major-allele copy) -/

section
attribute [local semireducible] Rat.add Rat.mul Rat.inv Rat.sub

end
